import Mathlib

set_option autoImplicit false

/-!
A shallow embedding of the slackdump components under verification:

* the event-log `Player` (package `processors`): indexing, per-id retrieval,
  `hasMore`, `Reset` and full-stream `Replay`;
* the sandboxed output filesystem `fsadapter.Directory`;
* the coordination skeleton of `exportV3` (worker count, error channel
  capacity, the error-collection loop);
* the best-effort single-item dump path (`dump.Dump`).

Modelling conventions: the byte stream underlying a `Player` is a list of
records, one entry per JSON record on disk; a record is `Option Event`,
where `none` stands for a record that fails to decode (malformed JSON).
Byte offsets are abstracted to record indices: `json.Decoder.InputOffset`
before the k-th decode corresponds to index k, and seeking to a recorded
offset followed by decoding one value corresponds to reading the list at
that index.  Go maps (`index`, `state`) are modelled as association lists
looked up by key; map iteration order is never observed by the code under
verification.
-/

namespace Slackdump

/-- Message payloads are opaque to all the verified code; a message is
abstracted to a string. -/
abbrev Msg := String

/-- File payloads are likewise opaque. -/
abbrev FileRef := String

/-- The event type tag.  The spec lists five variants: channel listings,
user listings, messages, thread messages and files. -/
inductive EventType
  | channels
  | users
  | messages
  | threadMessages
  | files
deriving DecidableEq, Repr

/-- One recorded event.  `parent` is the optional parent-message timestamp,
present only for thread-scoped events. -/
structure Event where
  type : EventType
  channelID : String
  parent : Option String
  isThreadMessage : Bool
  messages : List Msg
  files : List FileRef
deriving DecidableEq, Repr

/-- Modelled from the spec: `threadID` (not under src/) composes a channel
identifier and a parent timestamp into a single thread key. -/
def threadID (channelID threadTS : String) : String :=
  channelID ++ ":" ++ threadTS

/-- Modelled from the spec: `Event.ID` (not under src/) — for a main-channel
event the ID is the channel identifier; for a thread-scoped event (parent
timestamp present) it is the composition of channel identifier and parent
timestamp. -/
def Event.ID (e : Event) : String :=
  match e.parent with
  | some ts => threadID e.channelID ts
  | none => e.channelID

/-- Errors of the player.  `errNotFound` and `errExhausted` are the two
declared sentinel errors (`ErrNotFound`, `ErrExhausted`); `eof` is `io.EOF`;
`malformed` is a JSON decode failure. -/
inductive PErr
  | errNotFound
  | errExhausted
  | eof
  | malformed
deriving DecidableEq, Repr

deriving instance DecidableEq for Except

/-- One on-disk record: `some e` decodes to the event `e`, `none` is a
malformed record whose decode fails. -/
abbrev Rec := Option Event

/-- The `io.ReadSeeker` under the player: record data plus current
position (a record index, see the offset abstraction above). -/
structure ReadSeeker where
  data : List Rec
  pos : Nat
deriving DecidableEq, Repr

/-- The `index` type: event ID ↦ list of offsets for that id, in file
order.  Modelled as an association list. -/
abbrev Index := List (String × List Nat)

/-- Map lookup on the index. -/
def Index.lookup : Index → String → Option (List Nat)
  | [], _ => none
  | (k, v) :: rest, i => if k = i then some v else Index.lookup rest i

/-- Go `idx[id] = append(idx[id], off)`: append an offset to the entry for
`i`, creating the entry if absent. -/
def Index.push : Index → String → Nat → Index
  | [], i, off => [(i, [off])]
  | (k, v) :: rest, i, off =>
    if k = i then (k, v ++ [off]) :: rest else (k, v) :: Index.push rest i off

/-- The `state` type: event ID ↦ current offset index.  Association list. -/
abbrev PtrState := List (String × Nat)

/-- Map lookup on the pointer state (`ptr, ok := p.pointer[id]`). -/
def PtrState.lookup : PtrState → String → Option Nat
  | [], _ => none
  | (k, v) :: rest, i => if k = i then some v else PtrState.lookup rest i

/-- Map assignment on the pointer state (`p.pointer[id] = v`). -/
def PtrState.set : PtrState → String → Nat → PtrState
  | [], i, v => [(i, v)]
  | (k, x) :: rest, i, v =>
    if k = i then (k, v) :: rest else (k, x) :: PtrState.set rest i v

/-- The event player: stream, per-id cursors, index. -/
structure Player where
  rs : ReadSeeker
  pointer : PtrState
  idx : Index
deriving DecidableEq, Repr

/-- The scanning loop of `indexRecords`: for each record, capture the
current offset before decoding; a decode failure aborts with an error;
otherwise push the offset under the ID of the record. -/
def scanIndex : List Rec → Nat → Index → Except PErr Index
  | [], _, idx => .ok idx
  | none :: _, _, _ => .error .malformed
  | some e :: rest, i, idx => scanIndex rest (i + 1) (Index.push idx e.ID i)

/-- Go `indexRecords`: index the records, then seek the stream back to the
start.  On any decode failure no index is returned. -/
def indexRecords (rs : ReadSeeker) : Except PErr (Index × ReadSeeker) :=
  match scanIndex rs.data 0 [] with
  | .error e => .error e
  | .ok idx => .ok (idx, { rs with pos := 0 })

/-- Go `NewPlayer`: build the index (failing if indexing fails) and start
with an empty pointer state. -/
def NewPlayer (rs : ReadSeeker) : Except PErr Player :=
  match indexRecords rs with
  | .error e => .error e
  | .ok (idx, rs') => .ok { rs := rs', pointer := [], idx := idx }

/-- Decode exactly one record at the current stream position
(`json.NewDecoder(p.rs).Decode`): at end of data the decoder reports
`io.EOF`; a malformed record reports a decode error; otherwise the decoder
consumes the record. -/
def decodeOne (rs : ReadSeeker) : Except PErr (Event × ReadSeeker) :=
  match rs.data.get? rs.pos with
  | none => .error .eof
  | some none => .error .malformed
  | some (some e) => .ok (e, { rs with pos := rs.pos + 1 })

/-- Go `Player.tryGetEvent`: look up the id in the index (`ErrNotFound` if
absent); read the cursor, initialising it to 0 on first sight; if the
cursor has reached the end of the offset list return `io.EOF`; otherwise
seek to the offset the cursor selects, decode one record, and increment the
cursor. -/
def Player.tryGetEvent (p : Player) (i : String) : Player × Except PErr Event :=
  match Index.lookup p.idx i with
  | none => (p, .error .errNotFound)
  | some offsets =>
    let ptr : Nat := (PtrState.lookup p.pointer i).getD 0
    let pointer1 : PtrState :=
      match PtrState.lookup p.pointer i with
      | some _ => p.pointer
      | none => PtrState.set p.pointer i 0
    let p1 : Player := { p with pointer := pointer1 }
    if offsets.length ≤ ptr then
      (p1, .error .eof)
    else
      let off := offsets.getD ptr 0
      let p2 : Player := { p1 with rs := { p1.rs with pos := off } }
      match decodeOne p2.rs with
      | .error e => (p2, .error e)
      | .ok (ev, rs') =>
        ({ p2 with rs := rs', pointer := PtrState.set p2.pointer i (ptr + 1) }, .ok ev)

/-- Go `Player.hasMore`: false for an unknown id; otherwise true iff the
cursor (initialised to 0 on first sight) is strictly below the offset
count. -/
def Player.hasMore (p : Player) (i : String) : Player × Bool :=
  match Index.lookup p.idx i with
  | none => (p, false)
  | some offsets =>
    let ptr : Nat := (PtrState.lookup p.pointer i).getD 0
    let pointer1 : PtrState :=
      match PtrState.lookup p.pointer i with
      | some _ => p.pointer
      | none => PtrState.set p.pointer i 0
    ({ p with pointer := pointer1 }, decide (ptr < offsets.length))

/-- Go `Player.Messages`: retrieve the next event for the channel and project
its message payload. -/
def Player.Messages (p : Player) (channelID : String) : Player × Except PErr (List Msg) :=
  match p.tryGetEvent channelID with
  | (p', .error e) => (p', .error e)
  | (p', .ok ev) => (p', .ok ev.messages)

/-- Go `Player.HasMoreMessages`. -/
def Player.HasMoreMessages (p : Player) (channelID : String) : Player × Bool :=
  p.hasMore channelID

/-- Go `Player.Thread`: retrieve the next event for the thread id and project
its message payload. -/
def Player.Thread (p : Player) (channelID threadTS : String) : Player × Except PErr (List Msg) :=
  match p.tryGetEvent (threadID channelID threadTS) with
  | (p', .error e) => (p', .error e)
  | (p', .ok ev) => (p', .ok ev.messages)

/-- Go `Player.HasMoreThreads`. -/
def Player.HasMoreThreads (p : Player) (channelID threadTS : String) : Player × Bool :=
  p.hasMore (threadID channelID threadTS)

/-- Go `Player.Reset`: clear the pointer state and seek the stream to the
start (the seek cannot fail in this model). -/
def Player.Reset (p : Player) : Player :=
  { p with pointer := [], rs := { p.rs with pos := 0 } }

/-- One dispatched consumer call of the `Channeler` capability. -/
inductive Call
  | messages (channelID : String) (msgs : List Msg)
  | threadMessages (channelID : String) (parent : String) (msgs : List Msg)
  | files (channelID : String) (parent : String) (isThread : Bool) (fs : List FileRef)
deriving DecidableEq, Repr

/-- Go `Player.emit`: the dispatch switch.  Only the `Messages`,
`ThreadMessages` and `Files` type tags have a case; the switch has no
default, so any other tag dispatches nothing (`none`).  The Go code
dereferences `*evt.Parent` in the thread and file cases; recorded events
of those types always carry a parent, which we abstract with `getD ""`. -/
def Player.emit (evt : Event) : Option Call :=
  match evt.type with
  | .messages => some (.messages evt.channelID evt.messages)
  | .threadMessages => some (.threadMessages evt.channelID (evt.parent.getD "") evt.messages)
  | .files => some (.files evt.channelID (evt.parent.getD "") evt.isThreadMessage evt.files)
  | .channels => none
  | .users => none

/-- The decode loop of `Replay`: decode records in physical order from the
start, dispatching each through `Player.emit`; a malformed record stops
the loop with an error, after the dispatches that preceded it. -/
def replayScan : List Rec → List Call × Option PErr
  | [] => ([], none)
  | none :: _ => ([], some .malformed)
  | some e :: rest =>
    let (calls, er) := replayScan rest
    ((Player.emit e).toList ++ calls, er)

/-- Go `Player.Replay`: reset the player, then one pass over the whole stream
in on-disk order, dispatching each decoded record; the deferred seek puts
the position back at the start.  Returns the final player, the dispatch
trace, and the error if any. -/
def Player.Replay (p : Player) : Player × List Call × Option PErr :=
  let p0 := p.Reset
  let (calls, er) := replayScan p0.rs.data
  ({ p0 with rs := { p0.rs with pos := 0 } }, calls, er)

/-- Specification helper: the offsets (record indices, starting from
`base`) at which events with ID `i` sit in `log`. -/
def occ : List Event → String → Nat → List Nat
  | [], _, _ => []
  | e :: rest, i, base =>
    if e.ID = i then base :: occ rest i (base + 1) else occ rest i (base + 1)

/-- Specification helper: the events of `log` carrying ID `i`, in append
order. -/
def eventsFor (log : List Event) (i : String) : List Event :=
  log.filter (fun e => e.ID = i)

/-!
## Sandboxed output filesystem (`fsadapter.Directory`)

Paths are modelled lexically, as the Go `path/filepath` functions treat
them.  The sandbox root `fs.dir` is an absolute path, carried as its
`/`-separated segments (the leading `/` is implicit in the model).
`filepath.Join(fs.dir, fpath)` cleans the concatenated path, so leading
`..` segments of `fpath` cancel against trailing root components, and at
the filesystem root any remaining `..` is dropped: `cleanAbs` performs
exactly that absolute-path cleaning over the concatenated segments.
`filepath.Rel(base, target)` on two cleaned absolute paths drops their
common segment prefix and prepends one `..` per remaining base segment:
`relSegs` computes that segment form.  `strings.HasPrefix(rel, "..")` on
the `/`-joined relative string holds iff its first segment textually
starts with `..` (segments are never empty and never `.`), which
`relHasDotDot` tests.
-/

/-- Filesystem-adapter errors: `ErrIllegalDir` is the illegal-path error. -/
inductive FsErr
  | errIllegalDir
deriving DecidableEq, Repr

/-- Split a character list at every `/` (the Go `strings.Split` on the
separator, over the characters of the string). -/
def splitSlash : List Char → List Char → List (List Char)
  | [], acc => [acc.reverse]
  | c :: rest, acc =>
    if c = '/' then acc.reverse :: splitSlash rest [] else splitSlash rest (c :: acc)

/-- Split a path string into its non-empty segments, dropping `.`
segments (the first step of `filepath.Clean`). -/
def pathSegments (p : String) : List String :=
  ((splitSlash p.toList []).map (fun cs => String.mk cs)).filter
    (fun s => !(s == "") && !(s == "."))

/-- One step of absolute-path cleaning over a reversed segment stack: a
`..` segment pops the latest segment, or is dropped when the stack is
already at the filesystem root (`filepath.Clean` on an absolute path). -/
def cleanAbsStep (stk : List String) (seg : String) : List String :=
  if seg = ".." then
    match stk with
    | [] => []
    | _ :: rest => rest
  else seg :: stk

/-- Lexical cleaning of an absolute path given as segments, as
`filepath.Clean`: every `..` cancels the segment before it, and a `..`
at the filesystem root disappears.  The output never contains `..`. -/
def cleanAbs (segs : List String) : List String :=
  (segs.foldl cleanAbsStep []).reverse

/-- Drop the common segment prefix of two paths (the first step of
`filepath.Rel`). -/
def dropCommon : List String → List String → List String × List String
  | a :: as, b :: bs => if a = b then dropCommon as bs else (a :: as, b :: bs)
  | as, bs => (as, bs)

/-- Go `filepath.Rel(base, target)` over cleaned absolute segment paths:
one `..` per base segment beyond the common prefix, then the remaining
target segments (the empty result stands for Rel's `.`). -/
def relSegs (base target : List String) : List String :=
  let (bd, td) := dropCommon base target
  bd.map (fun _ => "..") ++ td

/-- Go `strings.HasPrefix(s, "..")`: the first two characters of `s` are
`..`. -/
def strHasDotDot (s : String) : Bool :=
  s.toList.take 2 == ['.', '.']

/-- Go `strings.HasPrefix(rel, "..")` where `rel` is the `/`-joined
segment list (`.` when empty): the string starts with `..` iff its first
segment textually starts with `..` (segments are never empty, never
`.`). -/
def relHasDotDot (segs : List String) : Bool :=
  match segs with
  | [] => false
  | s :: _ => strHasDotDot s

/-- A filesystem mutation performed by `Directory.Create`. -/
inductive FsOp
  | mkdirAll (dir : String)
  | createFile (path : String)
deriving DecidableEq, Repr

/-- The `Directory` adapter: a sandbox root (an absolute path). -/
structure Directory where
  dir : String
deriving DecidableEq, Repr

/-- Render an absolute segment path as a string. -/
def absPathString (segs : List String) : String :=
  "/" ++ String.intercalate "/" segs

/-- Go `filepath.Join(fs.dir, fpath)`: clean the concatenation of the
root and the requested path, in segment form. -/
def Directory.joinNode (fs : Directory) (fpath : String) : List String :=
  cleanAbs (pathSegments fs.dir ++ pathSegments fpath)

/-- Go `Directory.ensureSubdir(node)`: compute the node path relative to
the root (`filepath.Rel`, which cleans its base argument) and reject with
`ErrIllegalDir` when that relative form has the textual prefix `..`.
`Rel` cannot fail on two absolute paths, so the error branch of the Go
code is unreachable here. -/
def Directory.ensureSubdir (fs : Directory) (node : List String) : Option FsErr :=
  if relHasDotDot (relSegs (cleanAbs (pathSegments fs.dir)) node) then some .errIllegalDir
  else none

/-- Go `Directory.Create`: join the root with the requested path, check
`ensureSubdir` — on failure return the illegal-path error having
performed no filesystem operation; otherwise ensure the parent directory
exists (`mkdirAll`) and create (truncate) the file, returning the
performed operations and the created path. -/
def Directory.Create (fs : Directory) (fpath : String) : List FsOp × Except FsErr String :=
  let node := fs.joinNode fpath
  match Directory.ensureSubdir fs node with
  | some e => ([], .error e)
  | none =>
    ([.mkdirAll (absPathString node.dropLast), .createFile (absPathString node)],
     .ok (absPathString node))

/-- Whether the path `fpath`, resolved against the root by the join, lands
at or below the root: the cleaned root is a segment prefix of the
resolved node. -/
def resolvesUnderRoot (fs : Directory) (fpath : String) : Bool :=
  (cleanAbs (pathSegments fs.dir)).isPrefixOf (fs.joinNode fpath)

/-!
## `exportV3` coordination skeleton

The three workers (channel-id generator, user worker, conversation
worker) each run in their own goroutine and perform exactly one terminal
send `errC <- ...` of their result.  The error channel is created with
`make(chan error, 1)`.  The collector ranges over the channel and returns
the first non-nil error; the return path performs no filesystem
operation, so files already flushed are left as they are.
-/

/-- Worker errors are opaque strings. -/
abbrev GoErr := String

/-- The number of worker goroutines `exportV3` starts (generator, user
worker, conversation worker). -/
def exportWorkerCount : Nat := 3

/-- The capacity of the error-collection channel: `make(chan error, 1)`. -/
def errCCapacity : Nat := 1

/-- The terminal results sent on `errC`, one per worker goroutine. -/
def terminalSends (genRes userRes convRes : Option GoErr) : List (Option GoErr) :=
  [genRes, userRes, convRes]

/-- The collection loop `for err := range errC { if err != nil { return
err } }`, over the results in arrival order: return the first non-nil
error, or nil when the channel closes after only nil results. -/
def collectErrs : List (Option GoErr) → Option GoErr
  | [] => none
  | some e :: _ => some e
  | none :: rest => collectErrs rest

/-- The tail of `exportV3`: collect the first error from the received
results; the set of files already flushed to disk is untouched by the
return path. -/
def exportV3Collect (flushed : List String) (received : List (Option GoErr)) :
    Option GoErr × List String :=
  (collectErrs received, flushed)

/-!
## Best-effort single-item dump path (`dump.Dump` / `dump.dumpOne`)

Whether `dumpOne` succeeds for a given channel depends on the remote
session; it is abstracted as an oracle `ok : String → Bool`.
-/

/-- Dump-path errors: `errSkip` is `config.ErrSkip`; `invalidInput` is
the "no valid input" error. -/
inductive DumpErr
  | errSkip
  | invalidInput
  | other (msg : String)
deriving DecidableEq, Repr

/-- The callback `Dump` passes to the producer: on a `dumpOne` failure it
logs and returns `config.ErrSkip`; on success it increments the running
total. -/
def dumpCallback (ok : String → Bool) (i : String) (total : Nat) : Nat × Option DumpErr :=
  if ok i then (total + 1, none) else (total, some .errSkip)

/-- Modelled from the spec: `config.Params.Input.Producer` (not under
src/) feeds each target channel ID to the callback in order; a callback
returning `ErrSkip` skips that entity and continues with the remainder;
any other error aborts the iteration with that error. -/
def producerRun (f : String → Nat → Nat × Option DumpErr) :
    List String → Nat → Nat × Option DumpErr
  | [], total => (total, none)
  | i :: rest, total =>
    match f i total with
    | (total', none) => producerRun f rest total'
    | (total', some .errSkip) => producerRun f rest total'
    | (total', some e) => (total', some e)

/-- Go `dump.Dump`: reject invalid input, then run the producer over the
target channel IDs with the skip-on-error callback, returning the count
of successfully dumped items and the terminal error, if any.  (Template
compilation, which cannot fail per-channel, is abstracted away.) -/
def Dump (validInput : Bool) (ok : String → Bool) (ids : List String) : Nat × Option DumpErr :=
  if validInput then producerRun (dumpCallback ok) ids 0
  else (0, some .invalidInput)

/-- The pure scanning loop on a decodable stream: what `scanIndex`
computes when no record is malformed. -/
def scanAccum : List Event → Nat → Index → Index
  | [], _, idx => idx
  | e :: rest, i, idx => scanAccum rest (i + 1) (Index.push idx e.ID i)

/-- The index a fresh scan of `log` produces. -/
def idxOf (log : List Event) : Index :=
  scanAccum log 0 []

/-- Merge a previous lookup result with newly-pushed offsets. -/
def mergeOcc (prev : Option (List Nat)) (os : List Nat) : Option (List Nat) :=
  if os = [] then prev else some (prev.getD [] ++ os)

/-- A fixed dummy event, the unreachable default of safe list reads. -/
def dummyEvent : Event :=
  ⟨.messages, "", none, false, [], []⟩

/-- The current cursor value for an id: the Go map read with its zero
default. -/
def cursorOf (p : Player) (i : String) : Nat :=
  (PtrState.lookup p.pointer i).getD 0

/-- The player a fresh `NewPlayer` over a fully decodable log yields. -/
def freshPlayer (log : List Event) : Player :=
  ⟨⟨log.map some, 0⟩, [], idxOf log⟩

/-- The player state after `k` successive `tryGetEvent` calls for one id. -/
def iterGet (p : Player) (i : String) : Nat → Player
  | 0 => p
  | k + 1 => ((iterGet p i k).tryGetEvent i).1

/-!
## Concrete inputs used to instantiate the general theorems
-/

/-- A plain messages event for channel C1. -/
def wEvent1 : Event := ⟨.messages, "C1", none, false, ["m1"], []⟩

/-- A thread-scoped event for channel C1, parent timestamp t1. -/
def wEvent2 : Event := ⟨.threadMessages, "C1", some "t1", true, ["r1"], []⟩

/-- A second plain messages event for channel C1. -/
def wEvent3 : Event := ⟨.messages, "C1", none, false, ["m2"], []⟩

/-- A three-record log: two C1 message events around one thread event. -/
def wLog : List Event := [wEvent1, wEvent2, wEvent3]

/-- The stream over `wLog`. -/
def wRS : ReadSeeker := ⟨wLog.map some, 0⟩

/-- The fresh player over `wLog`. -/
def wPlayer : Player := freshPlayer wLog

/-- A single-record log for id C1. -/
def xLog : List Event := [wEvent1]

/-- The fresh player over `xLog`. -/
def xPlayer : Player := freshPlayer xLog

/-- A single channel-listing record. -/
def chEvent : Event := ⟨.channels, "CL", none, false, [], []⟩

/-- The fresh player over the one-listing-record log. -/
def chPlayer : Player := freshPlayer [chEvent]

/-- A stream whose second record is malformed. -/
def badRS : ReadSeeker := ⟨[some wEvent1, none], 0⟩

/-!
## Lemmas: index and pointer maps
-/

theorem Index.lookup_push_self (idx : Index) (i : String) (off : Nat) :
    Index.lookup (Index.push idx i off) i = some ((Index.lookup idx i).getD [] ++ [off]) := by
  induction idx with
  | nil => simp [Index.push, Index.lookup]
  | cons kv rest ih =>
    obtain ⟨k, v⟩ := kv
    by_cases hk : k = i
    · subst hk
      simp [Index.push, Index.lookup]
    · simp [Index.push, Index.lookup, hk, ih]

theorem Index.lookup_push_ne (idx : Index) (i j : String) (off : Nat) (h : j ≠ i) :
    Index.lookup (Index.push idx i off) j = Index.lookup idx j := by
  induction idx with
  | nil => simp [Index.push, Index.lookup, Ne.symm h]
  | cons kv rest ih =>
    obtain ⟨k, v⟩ := kv
    by_cases hk : k = i
    · subst hk
      simp [Index.push, Index.lookup, Ne.symm h]
    · by_cases hj : k = j
      · subst hj
        simp [Index.push, Index.lookup, hk]
      · simp [Index.push, Index.lookup, hk, hj, ih]

theorem PtrState.lookup_set_self (s : PtrState) (i : String) (v : Nat) :
    PtrState.lookup (PtrState.set s i v) i = some v := by
  induction s with
  | nil => simp [PtrState.set, PtrState.lookup]
  | cons kv rest ih =>
    obtain ⟨k, x⟩ := kv
    by_cases hk : k = i
    · subst hk
      simp [PtrState.set, PtrState.lookup]
    · simp [PtrState.set, PtrState.lookup, hk, ih]

theorem PtrState.lookup_set_ne (s : PtrState) (i j : String) (v : Nat) (h : j ≠ i) :
    PtrState.lookup (PtrState.set s i v) j = PtrState.lookup s j := by
  induction s with
  | nil => simp [PtrState.set, PtrState.lookup, Ne.symm h]
  | cons kv rest ih =>
    obtain ⟨k, x⟩ := kv
    by_cases hk : k = i
    · subst hk
      simp [PtrState.set, PtrState.lookup, Ne.symm h]
    · by_cases hj : k = j
      · subst hj
        simp [PtrState.set, PtrState.lookup, hk]
      · simp [PtrState.set, PtrState.lookup, hk, hj, ih]

theorem PtrState.set_set (s : PtrState) (i : String) (a b : Nat) :
    PtrState.set (PtrState.set s i a) i b = PtrState.set s i b := by
  induction s with
  | nil => simp [PtrState.set]
  | cons kv rest ih =>
    obtain ⟨k, x⟩ := kv
    by_cases hk : k = i
    · subst hk
      simp [PtrState.set]
    · simp [PtrState.set, hk, ih]

/-!
## Lemmas: the index built by a scan
-/



theorem mergeOcc_cons (prev : Option (List Nat)) (x : Nat) (os : List Nat) :
    mergeOcc prev (x :: os) = some (prev.getD [] ++ x :: os) := by
  simp [mergeOcc]

theorem mergeOcc_snoc_left (v : List Nat) (x : Nat) (os : List Nat) :
    mergeOcc (some (v ++ [x])) os = some (v ++ x :: os) := by
  cases os with
  | nil => simp [mergeOcc]
  | cons y ys => simp [mergeOcc]

theorem scanIndex_map_some (log : List Event) (b : Nat) (idx : Index) :
    scanIndex (log.map some) b idx = .ok (scanAccum log b idx) := by
  induction log generalizing b idx with
  | nil => simp [scanIndex, scanAccum]
  | cons e rest ih => simp [scanIndex, scanAccum, ih]

theorem lookup_scanAccum (log : List Event) (b : Nat) (idx : Index) (i : String) :
    Index.lookup (scanAccum log b idx) i = mergeOcc (Index.lookup idx i) (occ log i b) := by
  induction log generalizing b idx with
  | nil => simp [scanAccum, occ, mergeOcc]
  | cons e rest ih =>
    by_cases he : e.ID = i
    · subst he
      rw [scanAccum, ih, occ, if_pos rfl, Index.lookup_push_self, mergeOcc_snoc_left,
        mergeOcc_cons]
    · rw [scanAccum, ih, occ, if_neg he, Index.lookup_push_ne _ _ _ _ (by
        intro hc
        exact he hc.symm)]

theorem lookup_idxOf (log : List Event) (i : String) :
    Index.lookup (idxOf log) i = mergeOcc none (occ log i 0) := by
  rw [idxOf, lookup_scanAccum]
  rfl

/-!
## Lemmas: occurrence offsets decode to the filtered events
-/

theorem occ_succ (log : List Event) (i : String) (b : Nat) :
    occ log i (b + 1) = (occ log i b).map (· + 1) := by
  induction log generalizing b with
  | nil => simp [occ]
  | cons e rest ih =>
    by_cases he : e.ID = i
    · simp [occ, he, ih]
    · simp [occ, he, ih]

theorem occ_length (log : List Event) (i : String) (b : Nat) :
    (occ log i b).length = (eventsFor log i).length := by
  induction log generalizing b with
  | nil => simp [occ, eventsFor]
  | cons e rest ih =>
    by_cases he : e.ID = i
    · simp [occ, eventsFor, List.filter_cons, he, ih]
    · simp [occ, eventsFor, List.filter_cons, he, ih]


theorem occ_decode (log : List Event) (i : String) (k : Nat)
    (h : k < (occ log i 0).length) :
    log[(occ log i 0).getD k 0]? = (eventsFor log i)[k]? := by
  induction log generalizing k with
  | nil => simp [occ] at h
  | cons e rest ih =>
    by_cases he : e.ID = i
    · rw [occ, if_pos he, occ_succ] at h ⊢
      cases k with
      | zero =>
        simp [eventsFor, List.filter_cons, he]
      | succ k =>
        simp only [List.length_cons, Nat.succ_lt_succ_iff, List.length_map] at h
        have hm : (List.map (· + 1) (occ rest i 0)).getD k 0 = (occ rest i 0).getD k 0 + 1 := by
          rw [List.getD_eq_getElem?_getD, List.getElem?_map,
            List.getElem?_eq_getElem (by simpa using h), List.getD_eq_getElem?_getD,
            List.getElem?_eq_getElem (by simpa using h)]
          rfl
        rw [List.getD_cons_succ, hm]
        simp only [List.getElem?_cons_succ, eventsFor, List.filter_cons, he]
        simpa [eventsFor] using ih k (by simpa using h)
    · rw [occ, if_neg he, occ_succ] at h ⊢
      simp only [List.length_map] at h
      have hm : (List.map (· + 1) (occ rest i 0)).getD k 0 = (occ rest i 0).getD k 0 + 1 := by
        rw [List.getD_eq_getElem?_getD, List.getElem?_map,
          List.getElem?_eq_getElem (by simpa using h), List.getD_eq_getElem?_getD,
          List.getElem?_eq_getElem (by simpa using h)]
        rfl
      rw [hm]
      simp only [List.getElem?_cons_succ, eventsFor, List.filter_cons, he]
      simpa [eventsFor] using ih k (by simpa using h)

/-!
## Lemmas: player construction and single retrieval steps
-/

theorem NewPlayer_map_some (log : List Event) (pos : Nat) :
    NewPlayer ⟨log.map some, pos⟩ = .ok ⟨⟨log.map some, 0⟩, [], idxOf log⟩ := by
  simp [NewPlayer, indexRecords, scanIndex_map_some, idxOf]

theorem NewPlayer_ok_shape (rs : ReadSeeker) (p : Player) (h : NewPlayer rs = .ok p) :
    p = ⟨⟨rs.data, 0⟩, [], p.idx⟩ := by
  unfold NewPlayer indexRecords at h
  cases hs : scanIndex rs.data 0 [] with
  | error e => rw [hs] at h; cases h
  | ok idx =>
    rw [hs] at h
    simp only [Except.ok.injEq] at h
    subst h
    rfl


theorem tryGetEvent_notFound (log : List Event) (p : Player) (i : String)
    (hidx : p.idx = idxOf log) (hocc : occ log i 0 = []) :
    p.tryGetEvent i = (p, .error .errNotFound) := by
  have hl : Index.lookup p.idx i = none := by
    rw [hidx, lookup_idxOf, hocc]
    rfl
  unfold Player.tryGetEvent
  rw [hl]

theorem tryGetEvent_ok (log : List Event) (p : Player) (i : String)
    (hd : p.rs.data = log.map some) (hidx : p.idx = idxOf log)
    (hk : cursorOf p i < (occ log i 0).length) :
    p.tryGetEvent i =
      ({ rs := ⟨log.map some, (occ log i 0).getD (cursorOf p i) 0 + 1⟩,
         pointer := PtrState.set p.pointer i (cursorOf p i + 1),
         idx := p.idx },
       .ok ((eventsFor log i).getD (cursorOf p i) dummyEvent)) := by
  have hocc : occ log i 0 ≠ [] := by
    intro hc
    rw [hc] at hk
    simp at hk
  have hl : Index.lookup p.idx i = some (occ log i 0) := by
    rw [hidx, lookup_idxOf]
    cases hoc : occ log i 0 with
    | nil => exact absurd hoc hocc
    | cons x xs => rw [mergeOcc_cons]; rfl
  have hdec : (log.map some)[(occ log i 0).getD (cursorOf p i) 0]? =
      some (some ((eventsFor log i).getD (cursorOf p i) dummyEvent)) := by
    rw [List.getElem?_map, occ_decode log i _ hk]
    have hk' : cursorOf p i < (eventsFor log i).length := by
      rwa [occ_length] at hk
    rw [List.getElem?_eq_getElem hk', List.getD_eq_getElem?_getD,
      List.getElem?_eq_getElem hk']
    rfl
  cases hpl : PtrState.lookup p.pointer i with
  | none =>
    have hptr : cursorOf p i = 0 := by simp [cursorOf, hpl]
    rw [hptr] at hdec hk ⊢
    have hif : ¬ ((occ log i 0).length ≤ (0 : Nat)) := by omega
    simp only [Player.tryGetEvent, hl, hpl, Option.getD_none, if_neg hif, decodeOne, hd,
      List.get?_eq_getElem?, hdec]
    simp [PtrState.set_set]
  | some v =>
    have hptr : cursorOf p i = v := by simp [cursorOf, hpl]
    rw [hptr] at hdec hk ⊢
    have hif : ¬ ((occ log i 0).length ≤ v) := by omega
    simp only [Player.tryGetEvent, hl, hpl, Option.getD_some, if_neg hif, decodeOne, hd,
      List.get?_eq_getElem?, hdec]


theorem hasMore_spec (log : List Event) (p : Player) (i : String)
    (hidx : p.idx = idxOf log) :
    (p.hasMore i).2 = decide (cursorOf p i < (occ log i 0).length) := by
  cases hoc : occ log i 0 with
  | nil =>
    have hl : Index.lookup p.idx i = none := by
      rw [hidx, lookup_idxOf, hoc]
      rfl
    simp [Player.hasMore, hl]
  | cons x xs =>
    have hl : Index.lookup p.idx i = some (x :: xs) := by
      rw [hidx, lookup_idxOf, hoc, mergeOcc_cons]
      rfl
    cases hpl : PtrState.lookup p.pointer i with
    | none => simp [Player.hasMore, hl, cursorOf, hpl]
    | some v => simp [Player.hasMore, hl, cursorOf, hpl]


theorem NewPlayer_fresh (log : List Event) (pos : Nat) :
    NewPlayer ⟨log.map some, pos⟩ = .ok (freshPlayer log) :=
  NewPlayer_map_some log pos


theorem iterGet_invariant (log : List Event) (i : String) (k : Nat)
    (hk : k ≤ (occ log i 0).length) :
    (iterGet (freshPlayer log) i k).rs.data = log.map some ∧
    (iterGet (freshPlayer log) i k).idx = idxOf log ∧
    cursorOf (iterGet (freshPlayer log) i k) i = k := by
  induction k with
  | zero => exact ⟨rfl, rfl, by simp [iterGet, cursorOf, freshPlayer, PtrState.lookup]⟩
  | succ k ih =>
    obtain ⟨hd, hidx, hcur⟩ := ih (by omega)
    have hstep := tryGetEvent_ok log (iterGet (freshPlayer log) i k) i hd hidx
      (by rw [hcur]; omega)
    refine ⟨?_, ?_, ?_⟩
    · show ((iterGet (freshPlayer log) i k).tryGetEvent i).1.rs.data = _
      rw [hstep]
    · show ((iterGet (freshPlayer log) i k).tryGetEvent i).1.idx = _
      rw [hstep]
      exact hidx
    · show cursorOf ((iterGet (freshPlayer log) i k).tryGetEvent i).1 i = _
      rw [hstep]
      simp only [cursorOf, PtrState.lookup_set_self, Option.getD_some]
      simp only [cursorOf] at hcur
      omega

/-- C1: for every log and id, retrieving repeatedly via `tryGetEvent`
yields the events of that id in exactly append order, with `hasMore` true
before each retrieval and false exactly after the last one. -/
theorem c1_retrieve_in_append_order (log : List Event) (rs : ReadSeeker) (p : Player)
    (i : String) (hrs : rs.data = log.map some) (hp : NewPlayer rs = .ok p) (k : Nat) :
    (∀ h : k < (eventsFor log i).length,
      ((iterGet p i k).hasMore i).2 = true ∧
      ((iterGet p i k).tryGetEvent i).2 = .ok ((eventsFor log i).get ⟨k, h⟩)) ∧
    (k = (eventsFor log i).length → ((iterGet p i k).hasMore i).2 = false) := by
  have hrs' : rs = ⟨log.map some, rs.pos⟩ := by
    rw [← hrs]
  rw [hrs', NewPlayer_fresh] at hp
  have hpf : p = freshPlayer log := by
    cases hp
    rfl
  subst hpf
  constructor
  · intro h
    have hko : k < (occ log i 0).length := by
      rw [occ_length]
      exact h
    obtain ⟨hd, hidx, hcur⟩ := iterGet_invariant log i k (by omega)
    constructor
    · rw [hasMore_spec log _ i hidx, hcur]
      simp [hko]
    · have hstep := tryGetEvent_ok log (iterGet (freshPlayer log) i k) i hd hidx
        (by rw [hcur]; omega)
      rw [hstep, hcur]
      simp only [Prod.snd]
      rw [List.getD_eq_getElem?_getD, List.getElem?_eq_getElem h]
      rfl
  · intro hend
    have hko : (occ log i 0).length = k := by
      rw [occ_length, hend]
    obtain ⟨hd, hidx, hcur⟩ := iterGet_invariant log i k (by omega)
    rw [hasMore_spec log _ i hidx, hcur]
    simp [hko]



/-!
## Lemmas and claim theorems: Reset, indexing aborts, Replay
-/

theorem scanIndex_mem_none (s : List Rec) (b : Nat) (idx : Index) (h : none ∈ s) :
    scanIndex s b idx = .error .malformed := by
  induction s generalizing b idx with
  | nil => simp at h
  | cons r rest ih =>
    cases r with
    | none => rfl
    | some e =>
      have hr : none ∈ rest := by
        rcases List.mem_cons.mp h with hc | hc
        · cases hc
        · exact hc
      rw [scanIndex, ih (b + 1) _ hr]

/-- C7: index building aborts with the decode error on any malformed
record, returning no index at all; on success the returned stream is the
input rewound to the start. -/
theorem c7_index_abort_and_rewind (rs : ReadSeeker) :
    (none ∈ rs.data → indexRecords rs = .error .malformed) ∧
    (∀ idx rs', indexRecords rs = .ok (idx, rs') → rs'.pos = 0 ∧ rs'.data = rs.data) := by
  constructor
  · intro h
    rw [indexRecords, scanIndex_mem_none rs.data 0 [] h]
  · intro idx rs' h
    unfold indexRecords at h
    cases hs : scanIndex rs.data 0 [] with
    | error e =>
      rw [hs] at h
      cases h
    | ok i2 =>
      rw [hs] at h
      simp only [Except.ok.injEq, Prod.mk.injEq] at h
      rw [← h.2]
      exact ⟨rfl, rfl⟩

/-- C8: any player sharing the stream data and index of the fresh player is
returned by `Reset` to exactly the freshly-opened state (cursors cleared,
stream rewound), and `Reset` never touches the index. -/
theorem c8_reset_is_fresh (rs : ReadSeeker) (p : Player) (hp : NewPlayer rs = .ok p)
    (q : Player) (hdata : q.rs.data = p.rs.data) (hidx : q.idx = p.idx) :
    q.Reset = p ∧ q.Reset.idx = q.idx := by
  have hshape := NewPlayer_ok_shape rs p hp
  have hq : q.Reset = ⟨⟨q.rs.data, 0⟩, [], q.idx⟩ := rfl
  have hpd : p.rs.data = rs.data := by
    rw [hshape]
  constructor
  · rw [hq, hdata, hidx, hpd]
    exact hshape.symm
  · rfl

theorem replayScan_map_some (log : List Event) :
    replayScan (log.map some) = (log.filterMap Player.emit, none) := by
  induction log with
  | nil => rfl
  | cons e rest ih =>
    rw [List.map_cons, replayScan, ih, List.filterMap_cons]
    cases Player.emit e <;> simp

theorem length_filterMap_isSome {A B : Type} (f : A → Option B) (l : List A)
    (h : ∀ a ∈ l, (f a).isSome) : (l.filterMap f).length = l.length := by
  induction l with
  | nil => rfl
  | cons a rest ih =>
    have ha := h a (by simp)
    cases hfa : f a with
    | none =>
      rw [hfa] at ha
      simp at ha
    | some b =>
      rw [List.filterMap_cons, hfa]
      simp only [List.length_cons]
      rw [ih (fun x hx => h x (by simp [hx]))]

/-- C2 (amended): Replay dispatches exactly the records whose type the
dispatch switch handles, once each, in physical order; when every record
is of a handled type the dispatch count equals the record count. -/
theorem c2_replay_dispatch (log : List Event) (rs : ReadSeeker) (p : Player)
    (hrs : rs.data = log.map some) (hp : NewPlayer rs = .ok p) :
    p.Replay.2.1 = log.filterMap Player.emit ∧
    p.Replay.2.2 = none ∧
    ((∀ e ∈ log, (Player.emit e).isSome) → p.Replay.2.1.length = log.length) := by
  have hshape := NewPlayer_ok_shape rs p hp
  have hd : p.rs.data = log.map some := by
    rw [hshape]
    exact hrs
  have h2 : p.Replay.2 = (log.filterMap Player.emit, none) := by
    simp only [Player.Replay, Player.Reset]
    rw [hd, replayScan_map_some]
  refine ⟨by rw [h2], by rw [h2], ?_⟩
  intro hall
  rw [h2]
  exact length_filterMap_isSome Player.emit log hall

/-- C2 counterexample: a log holding one channel-listing record is
replayed with zero consumer dispatches, so the dispatch count differs
from the append count. -/
theorem c2_counterexample :
    NewPlayer ⟨[chEvent].map some, 0⟩ = .ok chPlayer ∧
    ([chEvent] : List Event).length = 1 ∧
    chPlayer.Replay.2.1.length = 0 := by
  decide

/-- C3: at the failing input — a log holding a single event for id C1,
with id C1 already consumed once — the second retrieval returns the
end-of-stream sentinel `io.EOF`, not the declared `ErrExhausted`; the
not-found half of the claim does hold. -/
theorem c3_exhausted_sentinel_mismatch :
    NewPlayer ⟨xLog.map some, 0⟩ = .ok xPlayer ∧
    (xPlayer.tryGetEvent "C2").2 = .error .errNotFound ∧
    ((xPlayer.tryGetEvent "C1").1.tryGetEvent "C1").2 = .error .eof ∧
    PErr.eof ≠ PErr.errExhausted := by
  decide


/-!
## Claim theorems: sandbox, export coordination, dump path
-/

/-- Fidelity check at the join-cancellation input: under root `/root`,
the path `../root/x` joins to `/root/x` (the leading `..` cancels against
the root component), its form relative to the root is plain `x`, and
Create accepts it, creating `/root/x` — matching the Go code. -/
theorem create_join_cancellation :
    Directory.joinNode ⟨"/root"⟩ "../root/x" = ["root", "x"] ∧
    relSegs (cleanAbs (pathSegments "/root")) (Directory.joinNode ⟨"/root"⟩ "../root/x") =
      ["x"] ∧
    Directory.Create ⟨"/root"⟩ "../root/x" =
      ([.mkdirAll "/root", .createFile "/root/x"], .ok "/root/x") := by
  decide

/-- C5: a relative path whose form relative to the sandbox root (the
`filepath.Rel` of the joined node) begins with a parent-escape segment is
rejected by Create with the illegal-path error, and no filesystem
operation is performed. -/
theorem c5_parent_escape_rejected (fs : Directory) (fpath : String)
    (h : (relSegs (cleanAbs (pathSegments fs.dir)) (fs.joinNode fpath)).head? =
      some "..") :
    fs.Create fpath = ([], .error .errIllegalDir) := by
  have hdd : relHasDotDot (relSegs (cleanAbs (pathSegments fs.dir)) (fs.joinNode fpath)) =
      true := by
    cases hs : relSegs (cleanAbs (pathSegments fs.dir)) (fs.joinNode fpath) with
    | nil =>
      rw [hs] at h
      cases h
    | cons s t =>
      rw [hs] at h
      simp only [List.head?_cons, Option.some.injEq] at h
      subst h
      show strHasDotDot ".." = true
      decide
  simp [Directory.Create, Directory.ensureSubdir, hdd]

/-- C10: the escape check is a textual prefix test, so a path like
`..foo/bar` — no parent traversal at all, resolving strictly under the
root — is nevertheless rejected with the illegal-path error. -/
theorem c10_textual_test_rejects_safe_path :
    resolvesUnderRoot ⟨"/root"⟩ "..foo/bar" = true ∧
    (relSegs (cleanAbs (pathSegments "/root"))
      (Directory.joinNode ⟨"/root"⟩ "..foo/bar")).head? ≠ some ".." ∧
    Directory.Create ⟨"/root"⟩ "..foo/bar" = ([], .error .errIllegalDir) := by
  decide

/-- C4 counterexample: the error-collection channel is created with
buffer capacity 1, which differs from the worker count 3. -/
theorem c4_counterexample : errCCapacity ≠ exportWorkerCount := by
  decide

/-- C4 (amended): each of the three workers still reports exactly one
terminal result into the shared channel, but the channel capacity is 1,
strictly less than the worker count, so a terminal send can block until
the collector receives. -/
theorem c4_one_send_per_worker_capacity_one (g u c : Option GoErr) :
    (terminalSends g u c).length = exportWorkerCount ∧
    errCCapacity = 1 ∧ errCCapacity < exportWorkerCount :=
  ⟨rfl, rfl, by decide⟩

theorem collectErrs_first (received : List (Option GoErr)) :
    collectErrs received = received.findSome? (fun r => r) := by
  induction received with
  | nil => rfl
  | cons r rest ih =>
    cases r with
    | none => simpa [collectErrs, List.findSome?_cons] using ih
    | some e => simp [collectErrs, List.findSome?_cons]

/-- C6: the collection loop returns the first non-nil error in arrival
order (nil when every worker reported nil), and the files already flushed
by the workers are untouched by the return path. -/
theorem c6_first_error_no_rollback (flushed : List String) (received : List (Option GoErr)) :
    (exportV3Collect flushed received).1 = received.findSome? (fun r => r) ∧
    ((∀ r ∈ received, r = none) → (exportV3Collect flushed received).1 = none) ∧
    (exportV3Collect flushed received).2 = flushed := by
  refine ⟨collectErrs_first received, ?_, rfl⟩
  intro h
  show collectErrs received = none
  rw [collectErrs_first received]
  rw [List.findSome?_eq_none_iff]
  intro x hx
  rw [h x hx]

/-- C6 witness: with one failed worker the first error comes back and the
flushed file list is unchanged; with all workers nil the result is nil. -/
theorem c6_first_error_no_rollback_witness :
    (exportV3Collect ["a.log"] [none, some "boom", none]).1 = some "boom" ∧
    (exportV3Collect ["a.log"] [none, none, none]).1 = none ∧
    (exportV3Collect ["a.log"] [none, some "boom", none]).2 = ["a.log"] := by
  refine ⟨?_, ?_, ?_⟩
  · exact ((c6_first_error_no_rollback ["a.log"] [none, some "boom", none]).1).trans (by decide)
  · exact (c6_first_error_no_rollback ["a.log"] [none, none, none]).2.1 (by decide)
  · exact (c6_first_error_no_rollback ["a.log"] [none, some "boom", none]).2.2

theorem producerRun_dumpCallback (ok : String → Bool) (ids : List String) (t : Nat) :
    producerRun (dumpCallback ok) ids t = (t + (ids.filter ok).length, none) := by
  induction ids generalizing t with
  | nil => simp [producerRun]
  | cons i rest ih =>
    by_cases hi : ok i
    · rw [producerRun, dumpCallback, if_pos hi]
      simp only [ih, List.filter_cons, hi, if_true, List.length_cons, Prod.mk.injEq,
        and_true]
      omega
    · rw [producerRun, dumpCallback, if_neg hi]
      simp [ih, List.filter_cons, hi]

/-- C9: the single-item dump path skips every failing channel and
continues with the remaining ones, never aborting on a per-channel error,
and returns the count of successfully dumped items. -/
theorem c9_skip_and_continue (ok : String → Bool) (ids : List String) :
    Dump true ok ids = ((ids.filter ok).length, none) := by
  rw [Dump, if_pos rfl, producerRun_dumpCallback]
  simp

/-!
## Witness instantiations for the hypothesis-bearing claim theorems
-/

/-- C1 witness: on the concrete three-record log, the second C1 retrieval
has more data before it, returns the second C1 event, and has-more is
false after both C1 events are consumed. -/
theorem c1_retrieve_in_append_order_witness :
    ((iterGet wPlayer "C1" 1).hasMore "C1").2 = true ∧
    ((iterGet wPlayer "C1" 1).tryGetEvent "C1").2 = .ok wEvent3 ∧
    ((iterGet wPlayer "C1" 2).hasMore "C1").2 = false := by
  refine ⟨?_, ?_, ?_⟩
  · exact ((c1_retrieve_in_append_order wLog wRS wPlayer "C1" rfl (by decide) 1).1
      (by decide)).1
  · have h := ((c1_retrieve_in_append_order wLog wRS wPlayer "C1" rfl (by decide) 1).1
      (by decide)).2
    exact h.trans (by decide)
  · exact (c1_retrieve_in_append_order wLog wRS wPlayer "C1" rfl (by decide) 2).2 (by decide)

/-- C2 witness: on the concrete three-record log of handled types, Replay
dispatches exactly the filtered calls and the dispatch count equals the
record count. -/
theorem c2_replay_dispatch_witness :
    wPlayer.Replay.2.1 = wLog.filterMap Player.emit ∧
    wPlayer.Replay.2.1.length = wLog.length := by
  refine ⟨?_, ?_⟩
  · exact (c2_replay_dispatch wLog wRS wPlayer rfl (by decide)).1
  · exact (c2_replay_dispatch wLog wRS wPlayer rfl (by decide)).2.2 (by decide)

/-- C7 witness: the stream with a malformed second record aborts indexing
with the decode error; the well-formed stream is indexed and handed back
rewound with its data intact. -/
theorem c7_index_abort_and_rewind_witness :
    indexRecords badRS = .error .malformed ∧
    (⟨wLog.map some, 0⟩ : ReadSeeker).pos = 0 ∧
    (⟨wLog.map some, 0⟩ : ReadSeeker).data = wRS.data := by
  refine ⟨?_, ?_⟩
  · exact (c7_index_abort_and_rewind badRS).1 (by decide)
  · exact (c7_index_abort_and_rewind wRS).2 (idxOf wLog) ⟨wLog.map some, 0⟩ (by decide)

/-- C8 witness: after one retrieval on the concrete log, Reset returns
the player to exactly the freshly-opened state without touching the
index. -/
theorem c8_reset_is_fresh_witness :
    (wPlayer.tryGetEvent "C1").1.Reset = wPlayer ∧
    (wPlayer.tryGetEvent "C1").1.Reset.idx = (wPlayer.tryGetEvent "C1").1.idx :=
  c8_reset_is_fresh wRS wPlayer (by decide) (wPlayer.tryGetEvent "C1").1
    (by decide) (by decide)

/-- C5 witness: under root `/root` the path `../../x` joins to `/x`,
whose form relative to the root is `../x` — a parent escape — and Create
rejects it with no filesystem operation. -/
theorem c5_parent_escape_rejected_witness :
    Directory.Create ⟨"/root"⟩ "../../x" = ([], .error .errIllegalDir) :=
  c5_parent_escape_rejected ⟨"/root"⟩ "../../x" (by decide)

end Slackdump
